import Mathlib

/-!
Shallow embedding of `analyser.py`: a static-structure analyser for Python
source trees.  The program parses each file into a `StructuralUnit`
(imports, functions, classes-with-methods), aggregates units over a
directory, and renders the aggregate either as indented text or as a
Graphviz dot description.

The Python `ast` layer is modelled by the inductive `Stmt` (a tagged-variant
view of the node kinds the analyser inspects) and `SourceText` (the outcome
of `ast.parse`: a module body, or a syntax error).  `ast.walk`'s
breadth-first traversal is `walk`.  Python dict insertion
(position-preserving, last-write-wins) is `dictInsert`.
-/

namespace PyAnalyser

/-- A node of the parsed tree, at the granularity the analyser inspects:
`ast.Import` (with its alias names), `ast.ImportFrom` (module plus imported
names, as `alias.name` strings), `ast.FunctionDef`, `ast.ClassDef`, and any
other statement kind, kept only for the sub-statements nested inside it. -/
inductive Stmt where
  | importStmt (names : List String)
  | importFrom (module : String) (names : List String)
  | functionDef (name : String) (body : List Stmt)
  | classDef (name : String) (body : List Stmt)
  | other (body : List Stmt)

/-- The child statements of a node, as `ast.iter_child_nodes` would reach
the statement-level children. -/
def Stmt.children : Stmt → List Stmt
  | .importStmt _ => []
  | .importFrom _ _ => []
  | .functionDef _ body => body
  | .classDef _ body => body
  | .other body => body

/-- Outcome of `ast.parse` on a file's text: either a `SyntaxError` with its
message, or the module body. -/
inductive SourceText where
  | malformed (msg : String)
  | wellFormed (body : List Stmt)

theorem list_sizeOf_pos {α : Type} [SizeOf α] (l : List α) : 0 < sizeOf l := by
  cases l <;> simp

theorem sizeOf_children_lt (s : Stmt) : sizeOf s.children < sizeOf s := by
  cases s with
  | importStmt names => have h := list_sizeOf_pos names; simp [Stmt.children]; omega
  | importFrom m names => have h := list_sizeOf_pos names; simp [Stmt.children]; omega
  | functionDef n body => simp [Stmt.children]
  | classDef n body => simp [Stmt.children]
  | other body => simp [Stmt.children]

theorem list_sizeOf_append (l₁ l₂ : List Stmt) :
    sizeOf (l₁ ++ l₂) = sizeOf l₁ + sizeOf l₂ - 1 := by
  induction l₁ with
  | nil => simp
  | cons a as ih =>
      have h := list_sizeOf_pos l₂
      simp [List.cons_append, ih]
      omega

/-- Model of `ast.walk(tree)`: breadth-first traversal of every node, by a queue
that is extended with each visited node's children. -/
def walk : List Stmt → List Stmt
  | [] => []
  | s :: rest => s :: walk (rest ++ s.children)
termination_by q => sizeOf q
decreasing_by
  have h1 := sizeOf_children_lt s
  have h2 := list_sizeOf_append rest s.children
  simp at *
  omega

/-- One file's extracted structure, as built by `analyze_python_file`:
the Python dict with keys `imports` (deleted when imports are excluded,
hence an `Option`), `functions`, and `classes` (an insertion-ordered dict
from class name to method names). -/
structure StructuralUnit where
  imports : Option (List String)
  functions : List String
  classes : List (String × List String)
deriving DecidableEq

/-- Python dict assignment `d[k] = v` on an insertion-ordered association
list: overwrite in place when the key exists, else append. -/
def dictInsert {α : Type} (k : String) (v : α) : List (String × α) → List (String × α)
  | [] => [(k, v)]
  | kv :: rest => if kv.1 = k then (k, v) :: rest else kv :: dictInsert k v rest

/-- Python dict lookup `d.get(k)`. -/
def dictGet {α : Type} (k : String) : List (String × α) → Option α
  | [] => none
  | kv :: rest => if kv.1 = k then some kv.2 else dictGet k rest

/-- The comprehension `[n.name for n in node.body if isinstance(n, ast.FunctionDef)]`: the
names of the immediate child function definitions, in source order. -/
def methodNames (body : List Stmt) : List String :=
  body.filterMap fun s =>
    match s with
    | .functionDef n _ => some n
    | _ => none

/-- The body of the `for node in ast.walk(tree)` loop of
`analyze_python_file`: classify one node and update the structure.  The
`elif` chain means an import node contributes nothing when
`exclude_imports` is set. -/
def step (exclude_imports : Bool) (st : StructuralUnit) (node : Stmt) : StructuralUnit :=
  match node with
  | .importStmt names =>
      if exclude_imports then st
      else { st with imports := st.imports.map (· ++ names.map (fun n => "import " ++ n)) }
  | .importFrom m names =>
      if exclude_imports then st
      else { st with imports :=
               st.imports.map (· ++ ["from " ++ m ++ " import " ++ String.intercalate ", " names]) }
  | .functionDef n _ => { st with functions := st.functions ++ [n] }
  | .classDef c body => { st with classes := dictInsert c (methodNames body) st.classes }
  | .other _ => st

/-- Model of `analyze_python_file`: initialise `{'imports': [], 'functions': [],
'classes': {}}`; on a syntax error return that structure unchanged (the
early return precedes the `del`); otherwise fold the loop body over
`ast.walk` and, when `exclude_imports`, delete the `imports` key. -/
def analyze_python_file (src : SourceText) (exclude_imports : Bool) : StructuralUnit :=
  let st : StructuralUnit := { imports := some [], functions := [], classes := [] }
  match src with
  | .malformed _ => st
  | .wellFormed tree =>
      let st := (walk tree).foldl (step exclude_imports) st
      if exclude_imports then { st with imports := none } else st

/-- Model of `analyze_directory`: the directory walk is abstracted as the list of
discovered `.py` files, each a relative path paired with its parsed text;
each file's unit is stored under its relative path. -/
def analyze_directory (files : List (String × SourceText)) (exclude_imports : Bool) :
    List (String × StructuralUnit) :=
  files.foldl (fun st pf => dictInsert pf.1 (analyze_python_file pf.2 exclude_imports) st) []

/-- The `if contents.get('imports') and not args.exclude_imports:` block of
`print_structure`: Python truthiness makes `get` falsy both when the key is
absent and when the list is empty.  `args_exclude_imports` is the
module-level `args.exclude_imports` global the renderer reads. -/
def importsSection (indent : String) (contents : StructuralUnit)
    (args_exclude_imports : Bool) : List String :=
  match contents.imports with
  | none => []
  | some imps =>
      if imps ≠ [] ∧ args_exclude_imports = false then
        (indent ++ "Imports:") :: imps.map (fun imp => indent ++ "  - " ++ imp)
      else []

/-- One iteration of `print_structure`'s `for file_path, contents in
structure.items()` loop: the lines printed for one file's block. -/
def fileLines (file_path : String) (contents : StructuralUnit)
    (indent func_symbol class_symbol : String) (args_exclude_imports : Bool) : List String :=
  [file_path ++ ":"]
    ++ importsSection indent contents args_exclude_imports
    ++ contents.functions.map (fun func => indent ++ func_symbol ++ " " ++ func ++ "()")
    ++ contents.classes.flatMap (fun cm =>
         (indent ++ class_symbol ++ " " ++ cm.1)
           :: cm.2.map (fun method => indent ++ "  - " ++ method ++ "()"))
    ++ [""]

/-- Model of `print_structure`: the Text Renderer, modelled as the list of lines it
prints.  The empty aggregate prints the placeholder line and returns. -/
def print_structure (st : List (String × StructuralUnit))
    (indent func_symbol class_symbol : String) (args_exclude_imports : Bool) : List String :=
  if st = [] then ["No structure to print."]
  else st.flatMap (fun fc =>
    fileLines fc.1 fc.2 indent func_symbol class_symbol args_exclude_imports)

/-- Python `s.replace(a, b)` for a single-character pattern and
replacement, which is all `generate_dot` uses. -/
def charReplace (a b : Char) (s : String) : String :=
  String.mk (s.data.map (fun c => if c = a then b else c))

def file_attrs : String := "fillcolor=\"lightblue\", shape=box"

def class_attrs : String := "fillcolor=\"lightgreen\", shape=ellipse"

def function_attrs : String := "fillcolor=\"lightyellow\", shape=note"

/-- The f-string `f'    {id} [{attrs}, label="{label}"];'` used for every
node declaration in `generate_dot`. -/
def nodeLine (id attrs label : String) : String :=
  "    " ++ id ++ " [" ++ attrs ++ ", label=\"" ++ label ++ "\"];"

/-- The f-string `f'    {a} -> {b};'` used for every edge in
`generate_dot`. -/
def edgeLine (a b : String) : String :=
  "    " ++ a ++ " -> " ++ b ++ ";"

/-- One iteration of `generate_dot`'s `for file, content in
structure.items()` loop: `file_node_name = file.replace('.', '_')
.replace('/', '_')`, then the file node, each function node with its
file edge, and each class node with its file edge and method subtree. -/
def fileDotLines (fc : String × StructuralUnit) : List String :=
  let file_node_name := charReplace '/' '_' (charReplace '.' '_' fc.1)
  nodeLine file_node_name file_attrs fc.1
    :: (fc.2.functions.flatMap (fun func =>
          let func_node := file_node_name ++ "_func_" ++ func
          [nodeLine func_node function_attrs (func ++ "()"),
           edgeLine file_node_name func_node])
        ++ fc.2.classes.flatMap (fun cm =>
             let class_node := file_node_name ++ "_cls_" ++ cm.1
             nodeLine class_node class_attrs cm.1
               :: edgeLine file_node_name class_node
               :: cm.2.flatMap (fun method =>
                    let method_node := class_node ++ "_meth_" ++ method
                    [nodeLine method_node function_attrs (method ++ "()"),
                     edgeLine class_node method_node])))

/-- The `lines` list built by `generate_dot`: the fixed header, each
file's subtree, and the closing brace. -/
def generate_dot_lines (st : List (String × StructuralUnit)) : List String :=
  ["digraph G \x7b",
   "    rankdir=LR;",
   "    node [style=filled, fontname=\"Helvetica\"];",
   "    edge [arrowhead=none];"]
    ++ st.flatMap fileDotLines
    ++ ["\x7d"]

/-- Model of `generate_dot`: the dot text, `'\n'.join(lines)`. -/
def generate_dot (st : List (String × StructuralUnit)) : String :=
  String.intercalate "\n" (generate_dot_lines st)

/-- Whether `pat` is an initial segment of `l`.  Used only to classify
output lines in the theorems below. -/
def startsWithChars : List Char → List Char → Bool
  | [], _ => true
  | _ :: _, [] => false
  | a :: as, b :: bs => a = b && startsWithChars as bs

/-- Does `pat` occur as a contiguous substring of `l`?  Used only to
classify output lines in the theorems below. -/
def containsSub (pat : List Char) : List Char → Bool
  | [] => startsWithChars pat []
  | b :: bs => startsWithChars pat (b :: bs) || containsSub pat bs

/-- A dot line declaring a node: it carries a `label=` attribute. -/
def isNodeDeclLine (l : String) : Bool :=
  containsSub "label=".data l.data

/-- A dot line declaring an edge: it contains the arrow `->`. -/
def isEdgeLine (l : String) : Bool :=
  containsSub " -> ".data l.data

/-- A dot line mentioning the `arrowhead` attribute. -/
def mentionsArrowhead (l : String) : Bool :=
  containsSub "arrowhead".data l.data

/-- The strings the loop of `analyze_python_file` appends to `imports` for
one node: the `f"import {alias.name}"` renderings of a plain import, the
single `f"from {module} import {names}"` rendering of a from-import, and
nothing for any other node. -/
def renderImport : Stmt → List String
  | .importStmt names => names.map (fun n => "import " ++ n)
  | .importFrom m names => ["from " ++ m ++ " import " ++ String.intercalate ", " names]
  | _ => []

/-- The class-definition nodes of a node list, as name-body pairs. -/
def classDefsOf (l : List Stmt) : List (String × List Stmt) :=
  l.filterMap fun s =>
    match s with
    | .classDef c b => some (c, b)
    | _ => none

/-- All import renderings contributed by a node list, in visit order. -/
def importStrings (l : List Stmt) : List String :=
  l.flatMap renderImport

/-! ### Association-list (Python dict) lemmas -/

theorem dictInsert_cons_eq {α : Type} {kv : String × α} {rest : List (String × α)}
    {k : String} {v : α} (h : kv.1 = k) :
    dictInsert k v (kv :: rest) = (k, v) :: rest := by
  simp [dictInsert, h]

theorem dictInsert_cons_ne {α : Type} {kv : String × α} {rest : List (String × α)}
    {k : String} {v : α} (h : ¬kv.1 = k) :
    dictInsert k v (kv :: rest) = kv :: dictInsert k v rest := by
  simp [dictInsert, h]

theorem dictGet_dictInsert_self {α : Type} (k : String) (v : α) (d : List (String × α)) :
    dictGet k (dictInsert k v d) = some v := by
  induction d with
  | nil => simp [dictInsert, dictGet]
  | cons kv rest ih =>
      by_cases h : kv.1 = k
      · simp [dictInsert, dictGet, h]
      · simp [dictInsert, dictGet, h, ih]

theorem dictGet_dictInsert_ne {α : Type} {k k' : String} (h : k' ≠ k) (v : α)
    (d : List (String × α)) : dictGet k (dictInsert k' v d) = dictGet k d := by
  induction d with
  | nil => simp [dictInsert, dictGet, h]
  | cons kv rest ih =>
      by_cases h2 : kv.1 = k'
      · rw [dictInsert_cons_eq h2]
        have h4 : ¬kv.1 = k := by rw [h2]; exact h
        simp [dictGet, h4, ← h2]
      · rw [dictInsert_cons_ne h2]
        by_cases h3 : kv.1 = k
        · simp [dictGet, h3]
        · simp [dictGet, h3, ih]

theorem dictGet_isSome_dictInsert {α : Type} {k : String} (k' : String) (v : α)
    (d : List (String × α)) (h : (dictGet k d).isSome) :
    (dictGet k (dictInsert k' v d)).isSome := by
  by_cases hk : k' = k
  · subst hk
    simp [dictGet_dictInsert_self]
  · rw [dictGet_dictInsert_ne hk]
    exact h

theorem mem_keys_dictInsert {α : Type} {x k : String} {v : α} {d : List (String × α)}
    (h : x ∈ (dictInsert k v d).map Prod.fst) : x = k ∨ x ∈ d.map Prod.fst := by
  induction d with
  | nil =>
      simp [dictInsert] at h
      exact Or.inl h
  | cons kv rest ih =>
      by_cases h2 : kv.1 = k
      · rw [dictInsert_cons_eq h2] at h
        simp only [List.map_cons, List.mem_cons] at h ⊢
        rcases h with h | h
        · exact Or.inl h
        · exact Or.inr (Or.inr h)
      · rw [dictInsert_cons_ne h2] at h
        simp only [List.map_cons, List.mem_cons] at h ⊢
        rcases h with h | h
        · exact Or.inr (Or.inl h)
        · rcases ih h with h | h
          · exact Or.inl h
          · exact Or.inr (Or.inr h)

theorem nodup_keys_dictInsert {α : Type} (k : String) (v : α) (d : List (String × α))
    (h : (d.map Prod.fst).Nodup) : ((dictInsert k v d).map Prod.fst).Nodup := by
  induction d with
  | nil => simp [dictInsert]
  | cons kv rest ih =>
      simp only [List.map_cons, List.nodup_cons] at h
      by_cases h2 : kv.1 = k
      · rw [dictInsert_cons_eq h2]
        simp only [List.map_cons, List.nodup_cons]
        rw [← h2]
        exact h
      · rw [dictInsert_cons_ne h2]
        simp only [List.map_cons, List.nodup_cons]
        refine ⟨fun hmem => ?_, ih h.2⟩
        rcases mem_keys_dictInsert hmem with h3 | h3
        · exact h2 h3
        · exact h.1 h3

theorem nodup_keys_foldl_dictInsert {α β : Type} (g : β → α) :
    ∀ (l : List (String × β)) (d : List (String × α)),
      (d.map Prod.fst).Nodup →
      ((l.foldl (fun st cb => dictInsert cb.1 (g cb.2) st) d).map Prod.fst).Nodup := by
  intro l
  induction l with
  | nil => intro d h; simpa using h
  | cons x xs ih =>
      intro d h
      simp only [List.foldl_cons]
      exact ih _ (nodup_keys_dictInsert x.1 (g x.2) d h)

theorem dictGet_foldl_isSome {α β : Type} (g : β → α) (p : String) :
    ∀ (files : List (String × β)) (d : List (String × α)),
      ((∃ v, (p, v) ∈ files) ∨ (dictGet p d).isSome) →
      (dictGet p (files.foldl (fun st pf => dictInsert pf.1 (g pf.2) st) d)).isSome := by
  intro files
  induction files with
  | nil =>
      intro d h
      rcases h with ⟨v, hv⟩ | h
      · simp at hv
      · simpa using h
  | cons pf rest ih =>
      intro d h
      simp only [List.foldl_cons]
      rcases h with ⟨v, hv⟩ | h
      · rcases List.mem_cons.mp hv with heq | hmem
        · refine ih _ (Or.inr ?_)
          have hp : pf.1 = p := by
            rw [← heq]
          subst hp
          simp [dictGet_dictInsert_self]
        · exact ih _ (Or.inl ⟨v, hmem⟩)
      · exact ih _ (Or.inr (dictGet_isSome_dictInsert _ _ _ h))

theorem dictGet_foldl_dictInsert_eq_find {α β : Type} (g : β → α) (c : String) :
    ∀ (l : List (String × β)) (d : List (String × α)),
      dictGet c (l.foldl (fun st cb => dictInsert cb.1 (g cb.2) st) d) =
        match l.reverse.find? (fun cb => cb.1 == c) with
        | some cb => some (g cb.2)
        | none => dictGet c d := by
  intro l
  induction l with
  | nil => intro d; simp
  | cons x xs ih =>
      intro d
      simp only [List.foldl_cons, List.reverse_cons]
      rw [ih]
      rcases hfind : xs.reverse.find? (fun cb => cb.1 == c) with _ | cb
      · rw [List.find?_append, hfind]
        by_cases hx : x.1 = c
        · subst hx
          simp [dictGet_dictInsert_self]
        · simp [hx, dictGet_dictInsert_ne hx]
      · rw [List.find?_append, hfind]
        simp

/-! ### Traversal lemmas: `ast.walk` visits a node list and all its
descendants -/

theorem mem_walk_of_mem : ∀ (q : List Stmt), ∀ x ∈ q, x ∈ walk q := by
  intro q
  induction q using walk.induct with
  | case1 => intro x hx; simp at hx
  | case2 s rest ih =>
      intro x hx
      rw [walk]
      rcases List.mem_cons.mp hx with h | h
      · exact h ▸ List.mem_cons_self _ _
      · exact List.mem_cons_of_mem _ (ih x (List.mem_append_left _ h))

theorem mem_walk_children : ∀ (q : List Stmt), ∀ s ∈ walk q, ∀ t ∈ s.children, t ∈ walk q := by
  intro q
  induction q using walk.induct with
  | case1 => intro s hs; rw [walk] at hs; simp at hs
  | case2 s₀ rest ih =>
      intro s hs t ht
      rw [walk] at hs ⊢
      rcases List.mem_cons.mp hs with h | h
      · subst h
        exact List.mem_cons_of_mem _
          (mem_walk_of_mem _ t (List.mem_append_right _ ht))
      · exact List.mem_cons_of_mem _ (ih s h t ht)

/-! ### Characterisation of the `analyze_python_file` fold -/

theorem methodNames_cons (s : Stmt) (l : List Stmt) :
    methodNames (s :: l) = methodNames [s] ++ methodNames l := by
  cases s <;> simp [methodNames]

theorem classDefsOf_cons (s : Stmt) (l : List Stmt) :
    classDefsOf (s :: l) = classDefsOf [s] ++ classDefsOf l := by
  cases s <;> simp [classDefsOf]

theorem importStrings_cons (s : Stmt) (l : List Stmt) :
    importStrings (s :: l) = renderImport s ++ importStrings l := by
  simp [importStrings]

theorem step_functions (e : Bool) (st : StructuralUnit) (s : Stmt) :
    (step e st s).functions = st.functions ++ methodNames [s] := by
  cases s <;> cases e <;> simp [step, methodNames]

theorem step_classes (e : Bool) (st : StructuralUnit) (s : Stmt) :
    (step e st s).classes =
      (classDefsOf [s]).foldl (fun d cb => dictInsert cb.1 (methodNames cb.2) d) st.classes := by
  cases s <;> cases e <;> simp [step, classDefsOf]

theorem step_imports_false (st : StructuralUnit) (s : Stmt) :
    (step false st s).imports = st.imports.map (· ++ renderImport s) := by
  cases s <;> cases h : st.imports <;> simp [step, renderImport, h]

theorem step_imports_true (st : StructuralUnit) (s : Stmt) :
    (step true st s).imports = st.imports := by
  cases s <;> simp [step]

theorem foldl_step_functions (e : Bool) :
    ∀ (l : List Stmt) (st : StructuralUnit),
      (l.foldl (step e) st).functions = st.functions ++ methodNames l := by
  intro l
  induction l with
  | nil => intro st; simp [methodNames]
  | cons s rest ih =>
      intro st
      rw [List.foldl_cons, ih, step_functions, List.append_assoc, ← methodNames_cons]

theorem foldl_step_classes (e : Bool) :
    ∀ (l : List Stmt) (st : StructuralUnit),
      (l.foldl (step e) st).classes =
        (classDefsOf l).foldl (fun d cb => dictInsert cb.1 (methodNames cb.2) d) st.classes := by
  intro l
  induction l with
  | nil => intro st; simp [classDefsOf]
  | cons s rest ih =>
      intro st
      rw [List.foldl_cons, ih, step_classes, ← List.foldl_append, ← classDefsOf_cons]

theorem foldl_step_imports_false :
    ∀ (l : List Stmt) (st : StructuralUnit),
      (l.foldl (step false) st).imports = st.imports.map (· ++ importStrings l) := by
  intro l
  induction l with
  | nil => intro st; cases h : st.imports <;> simp [importStrings, h]
  | cons s rest ih =>
      intro st
      rw [List.foldl_cons, ih, step_imports_false, importStrings_cons]
      cases h : st.imports <;> simp [h]

theorem foldl_step_imports_true :
    ∀ (l : List Stmt) (st : StructuralUnit),
      (l.foldl (step true) st).imports = st.imports := by
  intro l
  induction l with
  | nil => intro st; rfl
  | cons s rest ih =>
      intro st
      rw [List.foldl_cons, ih, step_imports_true]

/-- The `functions` list of a well-formed parse is exactly the names of
the function-definition nodes in `ast.walk` order. -/
theorem analyze_wellFormed_functions (tree : List Stmt) (e : Bool) :
    (analyze_python_file (SourceText.wellFormed tree) e).functions = methodNames (walk tree) := by
  cases e <;> simp [analyze_python_file, foldl_step_functions]

/-- The `classes` dict of a well-formed parse is the dict-fold of the
class-definition nodes in `ast.walk` order. -/
theorem analyze_wellFormed_classes (tree : List Stmt) (e : Bool) :
    (analyze_python_file (SourceText.wellFormed tree) e).classes =
      (classDefsOf (walk tree)).foldl
        (fun d cb => dictInsert cb.1 (methodNames cb.2) d) [] := by
  cases e <;> simp [analyze_python_file, foldl_step_classes]

/-- The `imports` list of a well-formed parse with imports enabled is
exactly the renderings of the import nodes in `ast.walk` order. -/
theorem analyze_wellFormed_imports (tree : List Stmt) :
    (analyze_python_file (SourceText.wellFormed tree) false).imports =
      some (importStrings (walk tree)) := by
  simp [analyze_python_file, foldl_step_imports_false]

theorem mem_methodNames {n : String} {l : List Stmt} :
    n ∈ methodNames l ↔ ∃ b, Stmt.functionDef n b ∈ l := by
  simp only [methodNames, List.mem_filterMap]
  constructor
  · rintro ⟨s, hs, heq⟩
    cases s with
    | functionDef n0 b0 =>
        simp only [Option.some.injEq] at heq
        exact ⟨b0, heq ▸ hs⟩
    | importStmt names => simp at heq
    | importFrom m names => simp at heq
    | classDef c b => simp at heq
    | other b => simp at heq
  · rintro ⟨b, hb⟩
    exact ⟨Stmt.functionDef n b, hb, rfl⟩

theorem mem_classDefsOf {x : String × List Stmt} {l : List Stmt} :
    x ∈ classDefsOf l ↔ Stmt.classDef x.1 x.2 ∈ l := by
  simp only [classDefsOf, List.mem_filterMap]
  constructor
  · rintro ⟨s, hs, heq⟩
    cases s with
    | classDef c b =>
        simp only [Option.some.injEq] at heq
        rw [← heq]
        exact hs
    | importStmt names => simp at heq
    | importFrom m names => simp at heq
    | functionDef n b => simp at heq
    | other b => simp at heq
  · intro hb
    exact ⟨Stmt.classDef x.1 x.2, hb, rfl⟩

/-! ### The claims -/

/-- C1: a source text with a syntax error yields the empty structure
(`functions = []`, `classes = {}`, and `imports = []` when import
extraction is enabled); `analyze_python_file` is total, so nothing is
raised to the caller, and `analyze_directory`'s aggregate still holds an
entry under that file's relative path. -/
theorem parse_error_empty_unit_and_model_entry
    (files : List (String × SourceText)) (e : Bool) (p msg : String)
    (h : (p, SourceText.malformed msg) ∈ files) :
    analyze_python_file (SourceText.malformed msg) false =
      { imports := some [], functions := [], classes := [] } ∧
    (dictGet p (analyze_directory files e)).isSome := by
  refine ⟨rfl, ?_⟩
  have hfold := dictGet_foldl_isSome (fun s => analyze_python_file s e) p files []
    (Or.inl ⟨SourceText.malformed msg, h⟩)
  simpa [analyze_directory] using hfold

/-- Witness for C1 at a one-file directory whose file is malformed. -/
theorem parse_error_empty_unit_and_model_entry_witness :
    analyze_python_file (SourceText.malformed "invalid token") false =
      { imports := some [], functions := [], classes := [] } ∧
    (dictGet "bad.py"
      (analyze_directory [("bad.py", SourceText.malformed "invalid token")] false)).isSome :=
  parse_error_empty_unit_and_model_entry
    [("bad.py", SourceText.malformed "invalid token")] false "bad.py" "invalid token"
    (by simp)

/-- C2 counterexample: on a malformed source with `excludeImports=true`,
the early `return structure` precedes `del structure['imports']`, so the
returned unit still has the `imports` key (holding `[]`), refuting the
claim for ill-formed inputs. -/
theorem exclude_imports_malformed_keeps_imports_key :
    (analyze_python_file (SourceText.malformed "invalid") true).imports = some [] ∧
    (analyze_python_file (SourceText.malformed "invalid") true).imports ≠ none := by
  exact ⟨rfl, by simp [analyze_python_file]⟩

/-- C2 amended: for every *well-formed* source text, parsing with
`excludeImports=true` yields a unit whose `imports` field is absent
entirely (the key is deleted), not merely empty. -/
theorem exclude_imports_absent_for_wellformed (tree : List Stmt) :
    (analyze_python_file (SourceText.wellFormed tree) true).imports = none := by
  simp [analyze_python_file]

/-- C3: every function-definition node anywhere in the walked tree puts
its name in the flat `functions` list, regardless of nesting depth; in
particular a method of a class (whose name is not reused in the file)
appears both in that class's `classes` entry and in `functions`. -/
theorem functions_capture_all_function_defs (tree : List Stmt) (e : Bool) :
    ((analyze_python_file (SourceText.wellFormed tree) e).functions =
       methodNames (walk tree)) ∧
    (∀ n b, Stmt.functionDef n b ∈ walk tree →
       n ∈ (analyze_python_file (SourceText.wellFormed tree) e).functions) ∧
    (∀ c cb m mb, Stmt.classDef c cb ∈ walk tree →
       Stmt.functionDef m mb ∈ cb →
       (∀ cb', Stmt.classDef c cb' ∈ walk tree → cb' = cb) →
       dictGet c (analyze_python_file (SourceText.wellFormed tree) e).classes =
         some (methodNames cb) ∧
       m ∈ methodNames cb ∧
       m ∈ (analyze_python_file (SourceText.wellFormed tree) e).functions) := by
  refine ⟨analyze_wellFormed_functions tree e, ?_, ?_⟩
  · intro n b hf
    rw [analyze_wellFormed_functions]
    exact mem_methodNames.mpr ⟨b, hf⟩
  · intro c cb m mb hc hm huniq
    have hfwalk : Stmt.functionDef m mb ∈ walk tree :=
      mem_walk_children tree _ hc _ hm
    refine ⟨?_, mem_methodNames.mpr ⟨mb, hm⟩, by
      rw [analyze_wellFormed_functions]
      exact mem_methodNames.mpr ⟨mb, hfwalk⟩⟩
    rw [analyze_wellFormed_classes, dictGet_foldl_dictInsert_eq_find]
    have hmem : ((c, cb) : String × List Stmt) ∈ classDefsOf (walk tree) :=
      mem_classDefsOf.mpr hc
    have hsome : ((classDefsOf (walk tree)).reverse.find? (fun x => x.1 == c)).isSome := by
      rw [List.find?_isSome]
      exact ⟨(c, cb), List.mem_reverse.mpr hmem, by simp⟩
    obtain ⟨x, hx⟩ := Option.isSome_iff_exists.mp hsome
    have hpx := List.find?_some hx
    have hx1 : x.1 = c := by simpa using hpx
    have hxmem : x ∈ classDefsOf (walk tree) :=
      List.mem_reverse.mp (List.mem_of_find?_eq_some hx)
    have hxcls : Stmt.classDef x.1 x.2 ∈ walk tree := mem_classDefsOf.mp hxmem
    have hx2 : x.2 = cb := huniq x.2 (by rw [← hx1]; exact hxcls)
    rw [hx]
    simp [hx2]

/-- Witness for C3: a file with one class `C` holding one method `m`. -/
theorem functions_capture_all_function_defs_witness :
    dictGet "C" (analyze_python_file (SourceText.wellFormed
        [Stmt.classDef "C" [Stmt.functionDef "m" []]]) false).classes =
      some (methodNames [Stmt.functionDef "m" []]) ∧
    "m" ∈ methodNames [Stmt.functionDef "m" []] ∧
    "m" ∈ (analyze_python_file (SourceText.wellFormed
        [Stmt.classDef "C" [Stmt.functionDef "m" []]]) false).functions :=
  (functions_capture_all_function_defs
      [Stmt.classDef "C" [Stmt.functionDef "m" []]] false).2.2
    "C" [Stmt.functionDef "m" []] "m" []
    (by simp [walk, Stmt.children])
    (by simp)
    (by intro cb' h; simpa [walk, Stmt.children] using h)

/-- C4: on a well-formed parse, `classes` keys are unique within a file;
each key's value is the method-name list (immediate child function
definitions, in source order) of the textually last class definition with
that name (last-write-wins); every class-definition node has an entry
under its name. -/
theorem classes_last_write_wins (tree : List Stmt) (e : Bool) :
    (((analyze_python_file (SourceText.wellFormed tree) e).classes.map Prod.fst).Nodup) ∧
    (∀ c, dictGet c (analyze_python_file (SourceText.wellFormed tree) e).classes =
       ((classDefsOf (walk tree)).reverse.find? (fun x => x.1 == c)).map
         (fun x => methodNames x.2)) ∧
    (∀ c cb, Stmt.classDef c cb ∈ walk tree →
       (dictGet c (analyze_python_file (SourceText.wellFormed tree) e).classes).isSome) := by
  have h2 : ∀ c, dictGet c (analyze_python_file (SourceText.wellFormed tree) e).classes =
      ((classDefsOf (walk tree)).reverse.find? (fun x => x.1 == c)).map
        (fun x => methodNames x.2) := by
    intro c
    rw [analyze_wellFormed_classes, dictGet_foldl_dictInsert_eq_find]
    cases hfind : (classDefsOf (walk tree)).reverse.find? (fun x => x.1 == c) with
    | none => simp [dictGet]
    | some x => simp
  refine ⟨?_, h2, ?_⟩
  · rw [analyze_wellFormed_classes]
    exact nodup_keys_foldl_dictInsert _ _ [] (by simp)
  · intro c cb hc
    rw [h2 c]
    have hsome : ((classDefsOf (walk tree)).reverse.find? (fun x => x.1 == c)).isSome := by
      rw [List.find?_isSome]
      exact ⟨(c, cb), List.mem_reverse.mpr (mem_classDefsOf.mpr hc), by simp⟩
    obtain ⟨x, hx⟩ := Option.isSome_iff_exists.mp hsome
    rw [hx]
    rfl

/-- Witness for C4: two class definitions named `C` in one file; the
aggregate has an entry for `C`, and it holds the later method list. -/
theorem classes_last_write_wins_witness :
    (dictGet "C" (analyze_python_file (SourceText.wellFormed
        [Stmt.classDef "C" [Stmt.functionDef "m1" [], Stmt.functionDef "m2" []],
         Stmt.classDef "C" [Stmt.functionDef "m3" []]]) false).classes).isSome :=
  (classes_last_write_wins
      [Stmt.classDef "C" [Stmt.functionDef "m1" [], Stmt.functionDef "m2" []],
       Stmt.classDef "C" [Stmt.functionDef "m3" []]] false).2.2
    "C" [Stmt.functionDef "m1" [], Stmt.functionDef "m2" []]
    (by simp [walk, Stmt.children])

/-- C5 counterexample: the renderer tests Python truthiness of
`contents.get('imports')`, so a unit whose `imports` field is present but
empty gets no `Imports` sub-header even though imports are not excluded:
the block is just the path header and the trailing blank line. -/
theorem imports_header_present_empty_cex :
    (StructuralUnit.mk (some []) [] []).imports ≠ none ∧
    print_structure [("a.py", StructuralUnit.mk (some []) [] [])] "    " "f" "C" false =
      ["a.py:", ""] := by
  decide

/-- C5 amended: the `Imports` sub-header (followed by one bulleted line
per import string) is emitted for a file's block exactly when the unit's
`imports` field is present *with a non-empty list* and the
exclude-imports flag — read from the module-level `args`, modelled here
as the renderer's `args_exclude_imports` argument — is false. -/
theorem imports_header_iff_nonempty (contents : StructuralUnit) (indent : String)
    (excl : Bool) :
    (importsSection indent contents excl ≠ [] ↔
       excl = false ∧ ∃ l, contents.imports = some l ∧ l ≠ []) ∧
    (∀ l, contents.imports = some l → l ≠ [] → excl = false →
       importsSection indent contents excl =
         (indent ++ "Imports:") :: l.map (fun imp => indent ++ "  - " ++ imp)) := by
  constructor
  · cases h : contents.imports with
    | none => simp [importsSection, h]
    | some imps => cases excl <;> cases imps <;> simp [importsSection, h]
  · intro l hl hne hexcl
    subst hexcl
    simp [importsSection, hl, hne]

/-- Witness for C5's amended claim: one non-empty import, not excluded. -/
theorem imports_header_iff_nonempty_witness :
    importsSection "    " (StructuralUnit.mk (some ["import os"]) [] []) false =
      ("    " ++ "Imports:") :: ["import os"].map (fun imp => "    " ++ "  - " ++ imp) :=
  (imports_header_iff_nonempty (StructuralUnit.mk (some ["import os"]) [] []) "    " false).2
    ["import os"] rfl (by simp) rfl

/-- C7: with imports enabled, the `imports` list is exactly the canonical
renderings of the import nodes in visit order — `"import <module>"` per
alias of a plain import, `"from <module> import <n1, n2, ...>"` with the
names comma-joined for a from-import; with `excludeImports=true` nothing
is appended and the field is even deleted. -/
theorem imports_render_characterization (tree : List Stmt) :
    (analyze_python_file (SourceText.wellFormed tree) false).imports =
      some (importStrings (walk tree)) ∧
    (analyze_python_file (SourceText.wellFormed tree) true).imports = none := by
  exact ⟨analyze_wellFormed_imports tree, by simp [analyze_python_file]⟩

/-- C6: a one-file model whose unit has one function and one class with
one method renders to the fixed 4-line header (which disables arrowheads
globally) plus exactly 4 node declarations (file, function, class,
method) and exactly 3 containment edges (file→function, file→class,
class→method), none of which carries its own arrowhead attribute; the
counts are checked concretely on such a model. -/
theorem dot_four_nodes_three_edges :
    (∀ (p f c m : String) (imp : Option (List String)),
       generate_dot_lines [(p, StructuralUnit.mk imp [f] [(c, [m])])] =
         ["digraph G \x7b",
          "    rankdir=LR;",
          "    node [style=filled, fontname=\"Helvetica\"];",
          "    edge [arrowhead=none];",
          nodeLine (charReplace '/' '_' (charReplace '.' '_' p)) file_attrs p,
          nodeLine (charReplace '/' '_' (charReplace '.' '_' p) ++ "_func_" ++ f)
            function_attrs (f ++ "()"),
          edgeLine (charReplace '/' '_' (charReplace '.' '_' p))
            (charReplace '/' '_' (charReplace '.' '_' p) ++ "_func_" ++ f),
          nodeLine (charReplace '/' '_' (charReplace '.' '_' p) ++ "_cls_" ++ c)
            class_attrs c,
          edgeLine (charReplace '/' '_' (charReplace '.' '_' p))
            (charReplace '/' '_' (charReplace '.' '_' p) ++ "_cls_" ++ c),
          nodeLine ((charReplace '/' '_' (charReplace '.' '_' p) ++ "_cls_" ++ c)
              ++ "_meth_" ++ m)
            function_attrs (m ++ "()"),
          edgeLine (charReplace '/' '_' (charReplace '.' '_' p) ++ "_cls_" ++ c)
            ((charReplace '/' '_' (charReplace '.' '_' p) ++ "_cls_" ++ c)
              ++ "_meth_" ++ m),
          "\x7d"]) ∧
    ((generate_dot_lines
        [("a.py", StructuralUnit.mk (some []) ["f"] [("C", ["m"])])]).countP
          isNodeDeclLine = 4 ∧
     (generate_dot_lines
        [("a.py", StructuralUnit.mk (some []) ["f"] [("C", ["m"])])]).countP
          isEdgeLine = 3 ∧
     (generate_dot_lines
        [("a.py", StructuralUnit.mk (some []) ["f"] [("C", ["m"])])]).countP
          (fun l => isEdgeLine l && mentionsArrowhead l) = 0 ∧
     "    edge [arrowhead=none];" ∈ generate_dot_lines
        [("a.py", StructuralUnit.mk (some []) ["f"] [("C", ["m"])])]) := by
  exact ⟨fun p f c m imp => rfl, by decide⟩

/-- C8: for every model, every file block in the dot output declares the
file node under the identifier obtained from the relative path by
replacing every `.` and `/` with `_`, and declares each function, class,
and method node under the owning node's identifier extended with the
role tag (`_func_`/`_cls_`/`_meth_`) and the member name; the derivation
is a pure function of the model, hence deterministic within a run. -/
theorem dot_node_identifier_derivation (st : List (String × StructuralUnit))
    (p : String) (content : StructuralUnit) (h : (p, content) ∈ st) :
    nodeLine (charReplace '/' '_' (charReplace '.' '_' p)) file_attrs p
      ∈ generate_dot_lines st ∧
    (∀ f ∈ content.functions,
       nodeLine (charReplace '/' '_' (charReplace '.' '_' p) ++ "_func_" ++ f)
         function_attrs (f ++ "()") ∈ generate_dot_lines st) ∧
    (∀ cm ∈ content.classes,
       nodeLine (charReplace '/' '_' (charReplace '.' '_' p) ++ "_cls_" ++ cm.1)
         class_attrs cm.1 ∈ generate_dot_lines st ∧
       ∀ m ∈ cm.2,
         nodeLine ((charReplace '/' '_' (charReplace '.' '_' p) ++ "_cls_" ++ cm.1)
             ++ "_meth_" ++ m)
           function_attrs (m ++ "()") ∈ generate_dot_lines st) := by
  have hsub : ∀ x ∈ fileDotLines (p, content), x ∈ generate_dot_lines st := by
    intro x hx
    unfold generate_dot_lines
    exact List.mem_append_left _ (List.mem_append_right _ (List.mem_flatMap.mpr ⟨_, h, hx⟩))
  refine ⟨hsub _ ?_, fun f hf => hsub _ ?_, fun cm hcm => ⟨hsub _ ?_, fun m hm => hsub _ ?_⟩⟩
  · simp [fileDotLines]
  · simp only [fileDotLines, List.mem_cons, List.mem_append]
    refine Or.inr (Or.inl (List.mem_flatMap.mpr ⟨f, hf, ?_⟩))
    simp
  · simp only [fileDotLines, List.mem_cons, List.mem_append]
    refine Or.inr (Or.inr (List.mem_flatMap.mpr ⟨cm, hcm, ?_⟩))
    simp
  · simp only [fileDotLines, List.mem_cons, List.mem_append]
    refine Or.inr (Or.inr (List.mem_flatMap.mpr ⟨cm, hcm, ?_⟩))
    simp only [List.mem_cons]
    refine Or.inr (Or.inr (List.mem_flatMap.mpr ⟨m, hm, ?_⟩))
    simp

/-- Witness for C8: the one-file sample model; its file node is declared
under the sanitised identifier `a_py`. -/
theorem dot_node_identifier_derivation_witness :
    nodeLine (charReplace '/' '_' (charReplace '.' '_' "a.py")) file_attrs "a.py"
      ∈ generate_dot_lines [("a.py", StructuralUnit.mk (some []) ["f"] [("C", ["m"])])] :=
  (dot_node_identifier_derivation
    [("a.py", StructuralUnit.mk (some []) ["f"] [("C", ["m"])])]
    "a.py" (StructuralUnit.mk (some []) ["f"] [("C", ["m"])]) (by simp)).1

/-- C9: both renderers are pure functions of the aggregate model and the
configuration, so rendering the same model twice with the same
configuration is byte-identical. -/
theorem render_deterministic (st : List (String × StructuralUnit))
    (indent func_symbol class_symbol : String) (e : Bool) :
    print_structure st indent func_symbol class_symbol e =
      print_structure st indent func_symbol class_symbol e ∧
    generate_dot st = generate_dot st :=
  ⟨rfl, rfl⟩

/-- C10: the empty aggregate model makes the Text Renderer emit exactly
the placeholder line `No structure to print.` and nothing else. -/
theorem empty_model_placeholder (indent func_symbol class_symbol : String) (e : Bool) :
    print_structure [] indent func_symbol class_symbol e = ["No structure to print."] := by
  simp [print_structure]

end PyAnalyser
